import Mathlib

/-!
Shallow embedding of the Blender addon `SpeedExtractor.py` (Speed Extractor).

The addon has four operators:
* `OBJECT_OT_GetSpeed.execute` — walks the scene frame range at a stride,
  computes a planar speed between consecutive sampled object positions,
  optionally smooths it with a moving average, and writes
  `"frameStart,frameEnd,speed\n"` lines into a named text block;
* `OBJECT_OT_TransferToShaderEditor.execute` / `OBJECT_OT_TransferToGeoNodes.execute`
  — parse those lines and drive a keyframed value node in a node graph;
* `OBJECT_OT_DisplaySpeed.execute` — builds a frame→speed dictionary from the
  lines and installs a frame-change handler updating a text object.

Python `float` values are idealised as exact rationals (`ℚ`) and the positions
fed to `math.sqrt` as exact reals (`ℝ`); Python's `round` builtin
(round-half-to-even) is modelled by `pyRound` / `pyRoundR`.  Strings are
modelled as `List Char`.
-/

namespace SpeedExtractor

/-- Python's `round` builtin on an exact rational: round to the nearest
integer, ties going to the even integer (banker's rounding). -/
def pyRound (q : ℚ) : ℤ :=
  let fl := ⌊q⌋
  let frac := q - fl
  if frac < 1/2 then fl
  else if 1/2 < frac then fl + 1
  else if Even fl then fl else fl + 1

/-- Python's `int` builtin applied to an exact float value: truncation
toward zero. -/
def pyInt (q : ℚ) : ℤ :=
  if q < 0 then ⌈q⌉ else ⌊q⌋

/-- Numeric value of a list of decimal digit characters, most significant
first (the usual left fold used when reading a decimal numeral). -/
def natVal (cs : List Char) : ℕ :=
  cs.foldl (fun a c => 10 * a + (c.toNat - 48)) 0

/-- The decimal digit character for a value `0 ≤ r < 10`. -/
def digitChar (r : ℕ) : Char :=
  (['0', '1', '2', '3', '4', '5', '6', '7', '8', '9']).getD r '0'

/-- Decimal representation of a natural number, as produced by Python's
`str` / f-string formatting of a non-negative `int`. -/
def natRepr (n : ℕ) : List Char :=
  if _h : n < 10 then [digitChar n]
  else natRepr (n / 10) ++ [digitChar (n % 10)]
  decreasing_by exact Nat.div_lt_self (by omega) (by omega)

/-- Decimal representation of an integer, as produced by Python's
f-string formatting of an `int` (a leading minus sign when negative). -/
def intRepr (n : ℤ) : List Char :=
  if n < 0 then '-' :: natRepr (-n).toNat else natRepr n.toNat

/-- Python's `str.split(sep)` with a single-character separator: splitting
never drops fields, so the result is always non-empty and splitting the
empty string yields one empty field. -/
def splitOnChar (sep : Char) : List Char → List (List Char)
  | [] => [[]]
  | c :: cs =>
    if c = sep then [] :: splitOnChar sep cs
    else
      match splitOnChar sep cs with
      | [] => [[c]]
      | g :: gs => (c :: g) :: gs

/-- Python's `str.strip()`: remove leading and trailing whitespace. -/
def pyStrip (cs : List Char) : List Char :=
  ((cs.dropWhile Char.isWhitespace).reverse.dropWhile Char.isWhitespace).reverse

/-- One serialized line `"{frame_start},{frame_end},{speed}"` (body, without
the trailing newline) as written by `OBJECT_OT_GetSpeed.execute`. -/
def tripleBody (r : ℤ × ℤ × ℤ) : List Char :=
  intRepr r.1 ++ ',' :: (intRepr r.2.1 ++ ',' :: intRepr r.2.2)

/-- The full serialized text block content: one `"{a},{b},{c}\n"` line per
record, in order (`text_block.write` of each line). -/
def serializeSeries (rs : List (ℤ × ℤ × ℤ)) : List Char :=
  (rs.map (fun r => tripleBody r ++ ['\n'])).flatten

/-- The serialized series without its trailing newline (the lines joined
by single newlines): characterisation device relating `serializeSeries`
to `pyStrip` and `splitOnChar`. -/
def seriesBody : List (ℤ × ℤ × ℤ) → List Char
  | [] => []
  | [r] => tripleBody r
  | r :: l => tripleBody r ++ '\n' :: seriesBody l

/-- Part of Python's `float` conversion after the optional sign: digits
with at most one decimal point (`"12"`, `"3.5"`, `".5"`, `"7."`).  The
model is restricted to plain decimal literals — no exponent, infinity,
nan or surrounding whitespace, none of which occur in this addon's data. -/
def pyFloatAux (sign : ℚ) (rest : List Char) : Option ℚ :=
  let intPart := rest.takeWhile Char.isDigit
  let rest2 := rest.dropWhile Char.isDigit
  match rest2 with
  | [] => if intPart.isEmpty then none else some (sign * natVal intPart)
  | '.' :: frac =>
    if frac.all Char.isDigit ∧ ¬(intPart.isEmpty ∧ frac.isEmpty) then
      some (sign * ((natVal intPart : ℚ) + (natVal frac : ℚ) / 10 ^ frac.length))
    else none
  | _ => none

/-- Python's `float` builtin on a string (the digits after an optional
sign are read by `pyFloatAux`). -/
def pyFloat (s : List Char) : Option ℚ :=
  match s with
  | [] => pyFloatAux 1 []
  | c :: r =>
    if c = '-' then pyFloatAux (-1) r
    else if c = '+' then pyFloatAux 1 r
    else pyFloatAux 1 (c :: r)

/-- Python's `int` builtin on a string, restricted (as `pyFloat`) to plain
literals: an optional sign followed by one or more digits. -/
def pyIntStrAux (sign : ℤ) (ds : List Char) : Option ℤ :=
  if ds.isEmpty ∨ ¬ds.all Char.isDigit then none
  else some (sign * natVal ds)

/-- Python's `int` builtin on a string (the digits after an optional sign
are read by `pyIntStrAux`). -/
def pyIntStr (s : List Char) : Option ℤ :=
  match s with
  | [] => pyIntStrAux 1 []
  | c :: r =>
    if c = '-' then pyIntStrAux (-1) r
    else if c = '+' then pyIntStrAux 1 r
    else pyIntStrAux 1 (c :: r)

/-- One line of `OBJECT_OT_DisplaySpeed.parse_speed_data`:
`frame_start, frame_end, speed = map(float, line.split(','))` followed by
`int(frame_start)`, `int(frame_end)`, `round(speed)`.  Unpacking fails
(ValueError) unless the line splits into exactly three fields, and each
field must convert via `float`. -/
def parseLine (l : List Char) : Option (ℤ × ℤ × ℤ) :=
  match splitOnChar ',' l with
  | [f1, f2, f3] =>
    match pyFloat f1, pyFloat f2, pyFloat f3 with
    | some a, some b, some c => some (pyInt a, pyInt b, pyRound c)
    | _, _, _ => none
  | _ => none

/-- The per-line loop of `parse_speed_data`: the first failing line aborts
the whole parse (the ValueError propagates). -/
def parseAll : List (List Char) → Option (List (ℤ × ℤ × ℤ))
  | [] => some []
  | l :: ls =>
    match parseLine l, parseAll ls with
    | some r, some rs => some (r :: rs)
    | _, _ => none

/-- The Series Reader: `text.strip().split('\n')` then one record per line,
as in `OBJECT_OT_DisplaySpeed.parse_speed_data` (lines 267–272). -/
def parseSeries (text : List Char) : Option (List (ℤ × ℤ × ℤ)) :=
  parseAll (splitOnChar '\n' (pyStrip text))

open Classical in
/-- Python's `round` builtin on an exact real value (round half to even),
used for the float speed in `OBJECT_OT_GetSpeed.execute`. -/
noncomputable def pyRoundR (x : ℝ) : ℤ :=
  let fl := ⌊x⌋
  let frac := x - fl
  if frac < 1/2 then fl
  else if 1/2 < frac then fl + 1
  else if Even fl then fl else fl + 1

/-- Number of elements of Python's `range(s, stop, step)` for a positive
step: `max(0, ceil((stop - s) / step))`, i.e. `(stop - s + step - 1) // step`
with floor division, clamped at zero. -/
def pyRangeLen (s stop step : ℤ) : ℕ :=
  ((stop - s + step - 1).fdiv step).toNat

/-- Python's `range(s, stop, step)` for a positive step: the frames
`s, s + step, s + 2*step, ...` strictly below `stop`. -/
def pyRange (s stop step : ℤ) : List ℤ :=
  (List.range (pyRangeLen s stop step)).map (fun i : ℕ => s + (i : ℤ) * step)

/-- The speed recorded between the previous sampled position `p` and the
current one `q` (lines 88–94): planar distance `sqrt(dx^2 + dy^2)`,
elapsed time `interval / fps`, then `round((d / t) * 100)`. -/
noncomputable def speedFromPair (p q : ℝ × ℝ) (interval fps : ℤ) : ℤ :=
  let dx := q.1 - p.1
  let dy := q.2 - p.2
  let horizontal_distance := Real.sqrt (dx ^ 2 + dy ^ 2)
  let time := (interval : ℝ) / (fps : ℝ)
  pyRoundR (horizontal_distance / time * 100)

/-- The frame loop of `OBJECT_OT_GetSpeed.execute` (lines 81–97): walk the
sampled frames carrying the previous location; once a previous location
exists, append `(frame - interval, frame, speed)` to the accumulator. -/
noncomputable def sampleLoop (loc : ℤ → ℝ × ℝ) (interval fps : ℤ) :
    List ℤ → Option (ℝ × ℝ) → List (ℤ × ℤ × ℤ) → List (ℤ × ℤ × ℤ)
  | [], _, acc => acc
  | f :: fs, prev, acc =>
    let location := loc f
    match prev with
    | none => sampleLoop loc interval fps fs (some location) acc
    | some p =>
      sampleLoop loc interval fps fs (some location)
        (acc ++ [(f - interval, f, speedFromPair p location interval fps)])

/-- The raw (pre-smoothing) record list produced by the sampling pass:
the loop over `range(start_frame, end_frame + 1, interval)` with no
previous location initially. -/
noncomputable def getSpeedRecords (loc : ℤ → ℝ × ℝ) (s e interval fps : ℤ) :
    List (ℤ × ℤ × ℤ) :=
  sampleLoop loc interval fps (pyRange s (e + 1) interval) none []

/-- The averaging pass of `OBJECT_OT_GetSpeed.execute` (lines 99–107):
for each index `i`, slice `speed_data[max(0, i - w//2) : min(n, i + w//2 + 1)]`,
average the speeds (float division, exact here), and round.  Natural-number
subtraction renders Python's `max(0, i - w//2)` directly. -/
def smoothRecords (w : ℕ) (data : List (ℤ × ℤ × ℤ)) : List (ℤ × ℤ × ℤ) :=
  let n := data.length
  (List.range n).map (fun i =>
    let ws := i - w / 2
    let we := min n (i + w / 2 + 1)
    let window := (data.drop ws).take (we - ws)
    let avg : ℚ := ((window.map (fun d => (d.2.2 : ℚ))).sum) / (window.length : ℚ)
    let d := data.getD i (0, 0, 0)
    (d.1, d.2.1, pyRound avg))

/-- Centered-window description of the smoothing pass, written from the
spec's words: the window at index `i` holds the records whose index lies
within `⌊w/2⌋` of `i`, clamped to the available bounds (`take` clamps the
right edge, truncated subtraction the left). -/
def smoothSpec (w : ℕ) (data : List (ℤ × ℤ × ℤ)) : List (ℤ × ℤ × ℤ) :=
  let n := data.length
  (List.range n).map (fun i =>
    let window := (data.take (i + w / 2 + 1)).drop (i - w / 2)
    let avg : ℚ := ((window.map (fun d => (d.2.2 : ℚ))).sum) / (window.length : ℚ)
    let d := data.getD i (0, 0, 0)
    (d.1, d.2.1, pyRound avg))

/-- The text blocks of the host document, as an association of block name
to content (`bpy.data.texts`). -/
abbrev TextStore := List (List Char × List Char)

/-- Set a text block's content, creating the block when absent: models
lines 74–78 (clear or create) and the writes of lines 109–110. -/
def setTextContent (name content : List Char) (ts : TextStore) : TextStore :=
  if ts.any (fun t => t.1 = name) then
    ts.map (fun t => if t.1 = name then (t.1, content) else t)
  else ts ++ [(name, content)]

/-- Outcome of an operator invocation: Blender's CANCELLED and FINISHED
return values, or an uncaught Python exception escaping `execute`. -/
inductive ExecResult
  | cancelled
  | finished
  | zeroDivRaised
deriving DecidableEq

/-- State transition of `OBJECT_OT_GetSpeed.execute` (lines 59–113) on the
text-block store.  With no selected object it cancels before touching any
state.  Otherwise the named block is cleared or created first; then, if
`fps = 0` and at least two frames are sampled, the `interval / scene.render.fps`
division raises ZeroDivisionError (modelled by the explicit guard, since
division is total in Lean) with the block already cleared; otherwise the
sampled records, optionally smoothed, are written. -/
noncomputable def getSpeedExec (objSelected : Bool) (loc : ℤ → ℝ × ℝ)
    (s e interval fps : ℤ) (applyAveraging : Bool) (w : ℕ)
    (name : List Char) (st : TextStore) : TextStore × ExecResult :=
  match objSelected with
  | false => (st, .cancelled)
  | true =>
    let st1 := setTextContent name [] st
    if fps = 0 ∧ 2 ≤ pyRangeLen s (e + 1) interval then (st1, .zeroDivRaised)
    else
      let speed_data := getSpeedRecords loc s e interval fps
      let speed_data2 := if applyAveraging then smoothRecords w speed_data else speed_data
      (setTextContent name (serializeSeries speed_data2) st1, .finished)

/-- Keyframe interpolation mode; the transfer operators set CONSTANT on
every inserted keyframe. -/
inductive Interp
  | constant
  | bezier
deriving DecidableEq

/-- An f-curve: the ordered keyframes `(frame, value, interpolation)`
inserted on it. -/
structure FCurve where
  keyframes : List (ℤ × ℚ × Interp)
deriving DecidableEq

/-- The part of a node tree's state the transfer operators touch: how many
value nodes exist, and the animation action (a list of f-curves) when one
is attached. -/
structure NodeTreeState where
  numValueNodes : ℕ
  action : Option (List FCurve)
deriving DecidableEq

/-- Common graph logic of `OBJECT_OT_TransferToShaderEditor.execute`
(lines 142–163) and `OBJECT_OT_TransferToGeoNodes.execute` (lines 206–227):
create one new value node, reuse the existing action (creating one only
when absent), append one new f-curve, and insert one CONSTANT keyframe per
`(frame, speed)` pair.  The returned flag records whether a new action was
created. -/
def transferToGraph (series : List (ℤ × ℚ)) (g : NodeTreeState) :
    NodeTreeState × Bool :=
  let created := g.action.isNone
  let curves := g.action.getD []
  let fcurve : FCurve := ⟨series.map (fun p => (p.1, p.2, Interp.constant))⟩
  (⟨g.numValueNodes + 1, some (curves ++ [fcurve])⟩, created)

/-- One row of the transfer operators' parse (lines 129, 142–143):
`line.split(',')` then `int(data[1])` and `float(data[2])`.  Rows with
fewer than three fields raise IndexError; extra fields are ignored. -/
def shaderParseRow (fields : List (List Char)) : Option (ℤ × ℚ) :=
  match fields with
  | _ :: f1 :: f2 :: _ =>
    match pyIntStr f1, pyFloat f2 with
    | some n, some q => some (n, q)
    | _, _ => none
  | _ => none

/-- All rows of the transfer operators' parse; any failing row aborts the
operator (the exception propagates). -/
def shaderParseAll : List (List Char) → Option (List (ℤ × ℚ))
  | [] => some []
  | l :: ls =>
    match shaderParseRow (splitOnChar ',' l), shaderParseAll ls with
    | some r, some rs => some (r :: rs)
    | _, _ => none

/-- The transfer operators' reading of the text block:
`[line.split(',') for line in text.strip().split('\n')]` with
`int(data[1])`, `float(data[2])` per row. -/
def shaderParse (text : List Char) : Option (List (ℤ × ℚ)) :=
  shaderParseAll (splitOnChar '\n' (pyStrip text))

/-- One dictionary-filling step of `parse_speed_data` (lines 271–272): the
record `r` assigns its speed to every frame of its inclusive
`[frame_start, frame_end]` range, overwriting earlier assignments. -/
def speedMapStep (m : ℤ → Option ℤ) (r : ℤ × ℤ × ℤ) : ℤ → Option ℤ :=
  fun f => if r.1 ≤ f ∧ f ≤ r.2.1 then some r.2.2 else m f

/-- The frame→speed dictionary built by `parse_speed_data` from the parsed
records, record by record. -/
def buildSpeedMap (rows : List (ℤ × ℤ × ℤ)) : ℤ → Option ℤ :=
  rows.foldl speedMapStep (fun _ => none)

/-- The per-frame lookup of the overlay callback (line 282):
`speed_data.get(current_frame, 0)`. -/
def lookupSpeed (rows : List (ℤ × ℤ × ℤ)) (f : ℤ) : ℤ :=
  (buildSpeedMap rows f).getD 0

/-- `bpy.app.handlers.frame_change_post.clear()` (line 292). -/
def clearHandlers {α : Type} (_hs : List α) : List α := []

/-- The handler-list effect of `OBJECT_OT_DisplaySpeed.execute`
(lines 292–293): clear the frame-change handler list, then append the
newly created `update_text` callback. -/
def displaySpeedHandlers {α : Type} (prev : List α) (handler : α) : List α :=
  clearHandlers prev ++ [handler]

/-! ### Digit and numeral lemmas -/

theorem digitChar_mem (r : ℕ) :
    digitChar r ∈ ['0', '1', '2', '3', '4', '5', '6', '7', '8', '9'] := by
  by_cases h : r < 10
  · interval_cases r <;> decide
  · have h0 : digitChar r = '0' :=
      List.getD_eq_default _ _ (by simp only [List.length_cons, List.length_nil]; omega)
    rw [h0]; decide

theorem decimal_digit_class :
    ∀ c ∈ (['0', '1', '2', '3', '4', '5', '6', '7', '8', '9'] : List Char),
      c.isDigit = true ∧ c.isWhitespace = false ∧ c ≠ '\n' ∧ c ≠ ',' ∧
      c ≠ '-' ∧ c ≠ '+' := by decide

theorem natRepr_mem (n : ℕ) :
    ∀ c ∈ natRepr n, c ∈ ['0', '1', '2', '3', '4', '5', '6', '7', '8', '9'] := by
  induction n using Nat.strong_induction_on with
  | _ n ih =>
    unfold natRepr
    split
    · intro c hc
      rw [List.mem_singleton] at hc
      exact hc ▸ digitChar_mem n
    · intro c hc
      rcases List.mem_append.1 hc with h1 | h2
      · exact ih (n / 10) (Nat.div_lt_self (by omega) (by omega)) c h1
      · rw [List.mem_singleton] at h2
        exact h2 ▸ digitChar_mem (n % 10)

theorem natRepr_ne_nil (n : ℕ) : natRepr n ≠ [] := by
  unfold natRepr
  split <;> simp

theorem natVal_append_digit (cs : List Char) (c : Char) :
    natVal (cs ++ [c]) = 10 * natVal cs + (c.toNat - 48) := by
  simp [natVal, List.foldl_append]

theorem digitChar_val {r : ℕ} (h : r < 10) : (digitChar r).toNat - 48 = r := by
  interval_cases r <;> decide

theorem natVal_natRepr (n : ℕ) : natVal (natRepr n) = n := by
  induction n using Nat.strong_induction_on with
  | _ n ih =>
    unfold natRepr
    split
    · rename_i h
      simp only [natVal, List.foldl_cons, List.foldl_nil]
      rw [digitChar_val h]
      omega
    · rename_i h
      rw [natVal_append_digit, ih (n / 10) (Nat.div_lt_self (by omega) (by omega)),
        digitChar_val (by omega)]
      omega

/-! ### Splitting and stripping -/

theorem splitOnChar_of_not_mem {sep : Char} : ∀ {xs : List Char}, sep ∉ xs →
    splitOnChar sep xs = [xs]
  | [], _ => rfl
  | c :: cs, h => by
    have hc : ¬c = sep := fun e => h (by simp [e])
    have hcs : sep ∉ cs := fun m => h (List.mem_cons_of_mem _ m)
    simp only [splitOnChar, if_neg hc, splitOnChar_of_not_mem hcs]

theorem splitOnChar_append_sep {sep : Char} (ys : List Char) :
    ∀ {xs : List Char}, sep ∉ xs →
    splitOnChar sep (xs ++ sep :: ys) = xs :: splitOnChar sep ys
  | [], _ => by simp [splitOnChar]
  | c :: cs, h => by
    have hc : ¬c = sep := fun e => h (by simp [e])
    have hcs : sep ∉ cs := fun m => h (List.mem_cons_of_mem _ m)
    simp only [List.cons_append, splitOnChar, List.append_eq, if_neg hc,
      splitOnChar_append_sep ys hcs]

theorem takeWhile_all_eq {p : Char → Bool} {l : List Char}
    (h : ∀ c ∈ l, p c = true) : l.takeWhile p = l :=
  List.takeWhile_eq_self_iff.mpr h

theorem dropWhile_all_eq {p : Char → Bool} {l : List Char}
    (h : ∀ c ∈ l, p c = true) : l.dropWhile p = [] :=
  List.dropWhile_eq_nil_iff.mpr h

theorem dropWhile_cons_pos {p : Char → Bool} {c : Char} {cs : List Char}
    (h : p c = true) : (c :: cs).dropWhile p = cs.dropWhile p := by
  simp [List.dropWhile_cons, h]

theorem pyStrip_append_newline {body : List Char}
    (h1 : body.dropWhile Char.isWhitespace = body)
    (h2 : body.reverse.dropWhile Char.isWhitespace = body.reverse) :
    pyStrip (body ++ ['\n']) = body := by
  cases body with
  | nil => decide
  | cons b rest =>
    have hnl : Char.isWhitespace '\n' = true := by decide
    unfold pyStrip
    rw [List.dropWhile_append, h1, if_neg (by simp), List.reverse_append,
      show (['\n'] : List Char).reverse = ['\n'] from rfl, List.singleton_append,
      dropWhile_cons_pos hnl, h2, List.reverse_reverse]

/-! ### Reading back serialized numerals -/

theorem natRepr_all_isDigit (n : ℕ) : ∀ c ∈ natRepr n, c.isDigit = true :=
  fun c hc => (decimal_digit_class c (natRepr_mem n c hc)).1

theorem pyFloat_cons (c : Char) (r : List Char) :
    pyFloat (c :: r) =
      if c = '-' then pyFloatAux (-1) r
      else if c = '+' then pyFloatAux 1 r
      else pyFloatAux 1 (c :: r) := rfl

theorem pyIntStr_cons (c : Char) (r : List Char) :
    pyIntStr (c :: r) =
      if c = '-' then pyIntStrAux (-1) r
      else if c = '+' then pyIntStrAux 1 r
      else pyIntStrAux 1 (c :: r) := rfl

theorem pyFloatAux_natRepr (sign : ℚ) (m : ℕ) :
    pyFloatAux sign (natRepr m) = some (sign * m) := by
  unfold pyFloatAux
  rw [takeWhile_all_eq (natRepr_all_isDigit m), dropWhile_all_eq (natRepr_all_isDigit m)]
  show (if (natRepr m).isEmpty then none
      else some (sign * (natVal (natRepr m) : ℚ))) = some (sign * m)
  rw [if_neg (by simp [List.isEmpty_iff, natRepr_ne_nil m]), natVal_natRepr]

theorem pyFloat_natRepr (m : ℕ) : pyFloat (natRepr m) = some (m : ℚ) := by
  obtain ⟨c, cs, hcons⟩ : ∃ c cs, natRepr m = c :: cs := by
    cases h : natRepr m with
    | nil => exact absurd h (natRepr_ne_nil m)
    | cons c cs => exact ⟨c, cs, rfl⟩
  have hc := decimal_digit_class c
    (natRepr_mem m c (by rw [hcons]; exact List.mem_cons_self c cs))
  rw [hcons, pyFloat_cons, if_neg hc.2.2.2.2.1, if_neg hc.2.2.2.2.2, ← hcons,
    pyFloatAux_natRepr, one_mul]

theorem pyFloat_intRepr (n : ℤ) : pyFloat (intRepr n) = some (n : ℚ) := by
  unfold intRepr
  split
  · rename_i h
    rw [pyFloat_cons, if_pos rfl, pyFloatAux_natRepr]
    congr 1
    have hn : (((-n).toNat : ℤ)) = -n := Int.toNat_of_nonneg (by omega)
    have hq : (((-n).toNat : ℕ) : ℚ) = ((-n : ℤ) : ℚ) := by exact_mod_cast hn
    rw [hq]
    push_cast
    ring
  · rename_i h
    rw [pyFloat_natRepr]
    congr 1
    have hn : ((n.toNat : ℤ)) = n := Int.toNat_of_nonneg (by omega)
    exact_mod_cast hn

theorem pyIntStrAux_natRepr (sign : ℤ) (m : ℕ) :
    pyIntStrAux sign (natRepr m) = some (sign * m) := by
  unfold pyIntStrAux
  rw [if_neg, natVal_natRepr]
  push_neg
  constructor
  · simpa [List.isEmpty_iff] using natRepr_ne_nil m
  · rw [List.all_eq_true]
    exact natRepr_all_isDigit m

theorem pyIntStr_intRepr (n : ℤ) : pyIntStr (intRepr n) = some n := by
  unfold intRepr
  split
  · rename_i h
    rw [pyIntStr_cons, if_pos rfl, pyIntStrAux_natRepr]
    congr 1
    omega
  · rename_i h
    obtain ⟨c, cs, hcons⟩ : ∃ c cs, natRepr n.toNat = c :: cs := by
      cases hx : natRepr n.toNat with
      | nil => exact absurd hx (natRepr_ne_nil n.toNat)
      | cons c cs => exact ⟨c, cs, rfl⟩
    have hc := decimal_digit_class c
      (natRepr_mem n.toNat c (by rw [hcons]; exact List.mem_cons_self c cs))
    rw [hcons, pyIntStr_cons, if_neg hc.2.2.2.2.1, if_neg hc.2.2.2.2.2, ← hcons,
      pyIntStrAux_natRepr]
    congr 1
    omega

theorem pyInt_intCast (n : ℤ) : pyInt ((n : ℚ)) = n := by
  unfold pyInt
  split
  · exact Int.ceil_intCast n
  · exact Int.floor_intCast n

theorem pyRound_intCast (n : ℤ) : pyRound ((n : ℚ)) = n := by
  simp [pyRound, Int.floor_intCast]

/-! ### Serialized lines and the round trip -/

theorem dropWhile_cons_neg {p : Char → Bool} {c : Char} {cs : List Char}
    (h : p c = false) : (c :: cs).dropWhile p = c :: cs := by
  simp [List.dropWhile_cons, h]

theorem intRepr_mem (n : ℤ) :
    ∀ c ∈ intRepr n,
      c ∈ '-' :: ['0', '1', '2', '3', '4', '5', '6', '7', '8', '9'] := by
  unfold intRepr
  split
  · intro c hc
    rcases List.mem_cons.1 hc with rfl | h
    · exact List.mem_cons_self _ _
    · exact List.mem_cons_of_mem _ (natRepr_mem _ c h)
  · intro c hc
    exact List.mem_cons_of_mem _ (natRepr_mem _ c hc)

theorem hyphen_digit_class :
    ∀ c ∈ ('-' :: ['0', '1', '2', '3', '4', '5', '6', '7', '8', '9'] : List Char),
      c.isWhitespace = false ∧ c ≠ '\n' ∧ c ≠ ',' := by decide

theorem intRepr_ne_nil (n : ℤ) : intRepr n ≠ [] := by
  unfold intRepr
  split
  · simp
  · exact natRepr_ne_nil _

theorem comma_not_mem_intRepr (n : ℤ) : ',' ∉ intRepr n :=
  fun h => (hyphen_digit_class ',' (intRepr_mem n ',' h)).2.2 rfl

theorem newline_not_mem_intRepr (n : ℤ) : '\n' ∉ intRepr n :=
  fun h => (hyphen_digit_class '\n' (intRepr_mem n '\n' h)).2.1 rfl

theorem intRepr_not_ws (n : ℤ) : ∀ c ∈ intRepr n, c.isWhitespace = false :=
  fun c hc => (hyphen_digit_class c (intRepr_mem n c hc)).1

theorem mem_tripleBody_cases {c : Char} {r : ℤ × ℤ × ℤ} (h : c ∈ tripleBody r) :
    c = ',' ∨ c ∈ intRepr r.1 ∨ c ∈ intRepr r.2.1 ∨ c ∈ intRepr r.2.2 := by
  unfold tripleBody at h
  rcases List.mem_append.1 h with h | h
  · exact Or.inr (Or.inl h)
  · rcases List.mem_cons.1 h with rfl | h
    · exact Or.inl rfl
    · rcases List.mem_append.1 h with h | h
      · exact Or.inr (Or.inr (Or.inl h))
      · rcases List.mem_cons.1 h with rfl | h
        · exact Or.inl rfl
        · exact Or.inr (Or.inr (Or.inr h))

theorem newline_not_mem_tripleBody (r : ℤ × ℤ × ℤ) : '\n' ∉ tripleBody r := by
  intro h
  rcases mem_tripleBody_cases h with h | h | h | h
  · exact absurd h (by decide)
  · exact newline_not_mem_intRepr _ h
  · exact newline_not_mem_intRepr _ h
  · exact newline_not_mem_intRepr _ h

theorem tripleBody_not_ws (r : ℤ × ℤ × ℤ) :
    ∀ c ∈ tripleBody r, c.isWhitespace = false := by
  intro c hc
  rcases mem_tripleBody_cases hc with rfl | h | h | h
  · decide
  · exact intRepr_not_ws _ c h
  · exact intRepr_not_ws _ c h
  · exact intRepr_not_ws _ c h

theorem tripleBody_ne_nil (r : ℤ × ℤ × ℤ) : tripleBody r ≠ [] := by
  unfold tripleBody
  intro h
  rcases List.append_eq_nil.1 h with ⟨_, h2⟩
  exact List.cons_ne_nil _ _ h2

theorem splitOnChar_tripleBody (r : ℤ × ℤ × ℤ) :
    splitOnChar ',' (tripleBody r) = [intRepr r.1, intRepr r.2.1, intRepr r.2.2] := by
  unfold tripleBody
  rw [splitOnChar_append_sep _ (comma_not_mem_intRepr _),
    splitOnChar_append_sep _ (comma_not_mem_intRepr _),
    splitOnChar_of_not_mem (comma_not_mem_intRepr _)]

theorem parseLine_tripleBody (r : ℤ × ℤ × ℤ) : parseLine (tripleBody r) = some r := by
  unfold parseLine
  rw [splitOnChar_tripleBody]
  simp only [pyFloat_intRepr]
  show some (pyInt (r.1 : ℚ), pyInt (r.2.1 : ℚ), pyRound (r.2.2 : ℚ)) = some r
  rw [pyInt_intCast, pyInt_intCast, pyRound_intCast]

theorem serializeSeries_cons (r : ℤ × ℤ × ℤ) (l : List (ℤ × ℤ × ℤ)) :
    serializeSeries (r :: l) = (tripleBody r ++ ['\n']) ++ serializeSeries l := by
  simp [serializeSeries]

theorem serializeSeries_eq_seriesBody :
    ∀ (l : List (ℤ × ℤ × ℤ)) (r), serializeSeries (r :: l) = seriesBody (r :: l) ++ ['\n']
  | [], r => by simp [serializeSeries, seriesBody]
  | r' :: l, r => by
    rw [serializeSeries_cons, serializeSeries_eq_seriesBody l r']
    show (tripleBody r ++ ['\n']) ++ (seriesBody (r' :: l) ++ ['\n'])
        = (tripleBody r ++ '\n' :: seriesBody (r' :: l)) ++ ['\n']
    simp [List.append_assoc]

theorem seriesBody_starts (l : List (ℤ × ℤ × ℤ)) (r : ℤ × ℤ × ℤ) :
    ∃ Y, seriesBody (r :: l) = tripleBody r ++ Y := by
  cases l with
  | nil => exact ⟨[], by simp [seriesBody]⟩
  | cons r' l => exact ⟨'\n' :: seriesBody (r' :: l), rfl⟩

theorem seriesBody_ends :
    ∀ (l : List (ℤ × ℤ × ℤ)) (r), ∃ X m, seriesBody (r :: l) = X ++ intRepr m
  | [], r =>
    ⟨intRepr r.1 ++ ',' :: intRepr r.2.1 ++ [','], r.2.2, by
      show tripleBody r = _
      unfold tripleBody
      simp [List.append_assoc]⟩
  | r' :: l, r => by
    obtain ⟨X, m, h⟩ := seriesBody_ends l r'
    exact ⟨tripleBody r ++ '\n' :: X, m, by
      show tripleBody r ++ '\n' :: seriesBody (r' :: l) = _
      rw [h]
      simp [List.append_assoc]⟩

theorem pyStrip_serializeSeries (r : ℤ × ℤ × ℤ) (l : List (ℤ × ℤ × ℤ)) :
    pyStrip (serializeSeries (r :: l)) = seriesBody (r :: l) := by
  rw [serializeSeries_eq_seriesBody]
  apply pyStrip_append_newline
  · obtain ⟨Y, hY⟩ := seriesBody_starts l r
    obtain ⟨c, cs, hcons⟩ : ∃ c cs, tripleBody r = c :: cs := by
      cases h : tripleBody r with
      | nil => exact absurd h (tripleBody_ne_nil r)
      | cons c cs => exact ⟨c, cs, rfl⟩
    have hc : c.isWhitespace = false :=
      tripleBody_not_ws r c (by rw [hcons]; exact List.mem_cons_self c cs)
    rw [hY, hcons, List.cons_append, dropWhile_cons_neg hc]
  · obtain ⟨X, m, hXm⟩ := seriesBody_ends l r
    obtain ⟨d, t, hrev⟩ : ∃ d t, (intRepr m).reverse = d :: t := by
      cases h : (intRepr m).reverse with
      | nil => exact absurd (List.reverse_eq_nil_iff.1 h) (intRepr_ne_nil m)
      | cons d t => exact ⟨d, t, rfl⟩
    have hd : d.isWhitespace = false :=
      intRepr_not_ws m d (List.mem_reverse.1 (by rw [hrev]; exact List.mem_cons_self d t))
    rw [hXm, List.reverse_append, hrev, List.cons_append, dropWhile_cons_neg hd]

theorem splitOnChar_seriesBody :
    ∀ (l : List (ℤ × ℤ × ℤ)) (r),
      splitOnChar '\n' (seriesBody (r :: l)) = (r :: l).map tripleBody
  | [], r => by
    show splitOnChar '\n' (tripleBody r) = [tripleBody r]
    exact splitOnChar_of_not_mem (newline_not_mem_tripleBody r)
  | r' :: l, r => by
    show splitOnChar '\n' (tripleBody r ++ '\n' :: seriesBody (r' :: l)) = _
    rw [splitOnChar_append_sep _ (newline_not_mem_tripleBody r),
      splitOnChar_seriesBody l r']
    rfl

theorem parseAll_map_tripleBody : ∀ l : List (ℤ × ℤ × ℤ), parseAll (l.map tripleBody) = some l
  | [] => rfl
  | r :: l => by
    show parseAll (tripleBody r :: l.map tripleBody) = some (r :: l)
    unfold parseAll
    rw [parseLine_tripleBody, parseAll_map_tripleBody l]

/-! ### Parse failure characterisation -/

theorem parseLine_eq_none_iff (l : List Char) :
    parseLine l = none ↔
      (splitOnChar ',' l).length ≠ 3 ∨ ∃ f ∈ splitOnChar ',' l, pyFloat f = none := by
  unfold parseLine
  rcases hfs : splitOnChar ',' l with _ | ⟨a, _ | ⟨b, _ | ⟨c, _ | ⟨d, t⟩⟩⟩⟩
  · simp
  · simp
  · simp
  · rcases h1 : pyFloat a with _ | qa <;> rcases h2 : pyFloat b with _ | qb <;>
      rcases h3 : pyFloat c with _ | qc <;> simp [h1, h2, h3]
  · simp

theorem parseAll_eq_none_iff :
    ∀ ls : List (List Char), parseAll ls = none ↔ ∃ l ∈ ls, parseLine l = none
  | [] => by simp [parseAll]
  | l :: ls => by
    have hstep : parseAll (l :: ls) =
        (match parseLine l, parseAll ls with
          | some r, some rs => some (r :: rs)
          | _, _ => none) := rfl
    rw [hstep]
    rcases h : parseLine l with _ | r
    · simp only [h]
      constructor
      · intro _
        exact ⟨l, List.mem_cons_self l ls, h⟩
      · intro _
        trivial
    · rcases h2 : parseAll ls with _ | rs
      · simp only [h, h2]
        constructor
        · intro _
          obtain ⟨x, hx, hnone⟩ := (parseAll_eq_none_iff ls).1 h2
          exact ⟨x, List.mem_cons_of_mem _ hx, hnone⟩
        · intro _
          trivial
      · simp only [h, h2]
        constructor
        · intro hcontra
          exact absurd hcontra (by simp)
        · rintro ⟨x, hx, hnone⟩
          rcases List.mem_cons.1 hx with rfl | hx
          · rw [h] at hnone
            exact absurd hnone (by simp)
          · have hn : parseAll ls = none := (parseAll_eq_none_iff ls).2 ⟨x, hx, hnone⟩
            rw [h2] at hn
            exact absurd hn (by simp)

/-! ### Smoothing lemmas -/

theorem map_range_getD {α β : Type} (f : α → β) (d : α) :
    ∀ l : List α, (List.range l.length).map (fun i => f (l.getD i d)) = l.map f
  | [] => rfl
  | x :: xs => by
    rw [List.length_cons, List.range_succ_eq_map, List.map_cons, List.map_map]
    simp only [Function.comp_def, List.getD_cons_zero, List.getD_cons_succ,
      Nat.succ_eq_add_one]
    rw [map_range_getD f d xs]
    rfl

theorem smoothRecords_eq_smoothSpec (w : ℕ) (data : List (ℤ × ℤ × ℤ)) :
    smoothRecords w data = smoothSpec w data := by
  unfold smoothRecords smoothSpec
  apply List.map_congr_left
  intro i hi
  rw [List.mem_range] at hi
  have hwin : (data.take (i + w / 2 + 1)).drop (i - w / 2)
      = (data.drop (i - w / 2)).take (min data.length (i + w / 2 + 1) - (i - w / 2)) := by
    rw [List.drop_take]
    rw [List.take_eq_take]
    simp only [List.length_drop]
    omega
  simp only []
  rw [hwin]

theorem smoothRecords_length (w : ℕ) (data : List (ℤ × ℤ × ℤ)) :
    (smoothRecords w data).length = data.length := by
  unfold smoothRecords
  simp

theorem smoothRecords_frames (w : ℕ) (data : List (ℤ × ℤ × ℤ)) :
    (smoothRecords w data).map (fun r => (r.1, r.2.1))
      = data.map (fun r => (r.1, r.2.1)) := by
  unfold smoothRecords
  rw [List.map_map]
  have hpt : ∀ i ∈ List.range data.length,
      ((fun r : ℤ × ℤ × ℤ => (r.1, r.2.1)) ∘ (fun i =>
        let ws := i - w / 2
        let we := min data.length (i + w / 2 + 1)
        let window := (data.drop ws).take (we - ws)
        let avg : ℚ := ((window.map (fun d => (d.2.2 : ℚ))).sum) / (window.length : ℚ)
        let d := data.getD i (0, 0, 0)
        (d.1, d.2.1, pyRound avg))) i
      = (fun i => (fun d : ℤ × ℤ × ℤ => (d.1, d.2.1)) (data.getD i (0, 0, 0))) i :=
    fun i _ => rfl
  rw [List.map_congr_left hpt]
  exact map_range_getD (fun d : ℤ × ℤ × ℤ => (d.1, d.2.1)) (0, 0, 0) data

theorem smoothRecords_one (data : List (ℤ × ℤ × ℤ)) :
    smoothRecords 1 data = data := by
  unfold smoothRecords
  have hpt : ∀ i ∈ List.range data.length,
      (fun i =>
        let ws := i - 1 / 2
        let we := min data.length (i + 1 / 2 + 1)
        let window := (data.drop ws).take (we - ws)
        let avg : ℚ := ((window.map (fun d => (d.2.2 : ℚ))).sum) / (window.length : ℚ)
        let d := data.getD i (0, 0, 0)
        (d.1, d.2.1, pyRound avg)) i
      = (fun i => data.getD i (0, 0, 0)) i := by
    intro i hi
    rw [List.mem_range] at hi
    simp only []
    have hhalf : (1 : ℕ) / 2 = 0 := rfl
    rw [hhalf, Nat.sub_zero, Nat.add_zero]
    have hmin : min data.length (i + 1) = i + 1 := by omega
    rw [hmin, Nat.add_sub_cancel_left]
    have hdrop : data.drop i = data.getD i (0, 0, 0) :: data.drop (i + 1) := by
      rw [List.drop_eq_getElem_cons hi, List.getD_eq_getElem _ _ hi]
    rw [hdrop]
    simp only [List.take_succ_cons, List.take_zero, List.map_cons, List.map_nil,
      List.sum_cons, List.sum_nil, List.length_cons, List.length_nil]
    norm_num
    rw [pyRound_intCast]
  rw [List.map_congr_left hpt]
  simpa using map_range_getD (fun x : ℤ × ℤ × ℤ => x) (0, 0, 0) data

/-! ### Sampling pass: closed form -/

theorem sampleLoop_nil (loc : ℤ → ℝ × ℝ) (k fps : ℤ) (prev : Option (ℝ × ℝ))
    (acc : List (ℤ × ℤ × ℤ)) : sampleLoop loc k fps [] prev acc = acc := rfl

theorem sampleLoop_cons_none (loc : ℤ → ℝ × ℝ) (k fps f : ℤ) (fs : List ℤ)
    (acc : List (ℤ × ℤ × ℤ)) :
    sampleLoop loc k fps (f :: fs) none acc
      = sampleLoop loc k fps fs (some (loc f)) acc := rfl

theorem sampleLoop_cons_some (loc : ℤ → ℝ × ℝ) (k fps f : ℤ) (p : ℝ × ℝ)
    (fs : List ℤ) (acc : List (ℤ × ℤ × ℤ)) :
    sampleLoop loc k fps (f :: fs) (some p) acc
      = sampleLoop loc k fps fs (some (loc f))
          (acc ++ [(f - k, f, speedFromPair p (loc f) k fps)]) := rfl

theorem sampleLoop_closed (loc : ℤ → ℝ × ℝ) (k fps : ℤ) :
    ∀ (n : ℕ) (f : ℤ) (acc : List (ℤ × ℤ × ℤ)),
      sampleLoop loc k fps ((List.range n).map (fun i : ℕ => f + ((i : ℤ) + 1) * k))
          (some (loc f)) acc
        = acc ++ (List.range n).map (fun i : ℕ =>
            (f + (i : ℤ) * k, f + ((i : ℤ) + 1) * k,
              speedFromPair (loc (f + (i : ℤ) * k)) (loc (f + ((i : ℤ) + 1) * k)) k fps)) := by
  intro n
  induction n with
  | zero =>
    intro f acc
    simp [sampleLoop_nil]
  | succ n ih =>
    intro f acc
    rw [List.range_succ_eq_map, List.map_cons, List.map_map, List.map_cons, List.map_map]
    have h0 : f + (((0 : ℕ) : ℤ) + 1) * k = f + k := by push_cast; ring
    rw [h0, sampleLoop_cons_some]
    have hframes : (List.range n).map ((fun i : ℕ => f + ((i : ℤ) + 1) * k) ∘ Nat.succ)
        = (List.range n).map (fun i : ℕ => (f + k) + ((i : ℤ) + 1) * k) := by
      apply List.map_congr_left
      intro i _
      simp only [Function.comp_apply, Nat.succ_eq_add_one]
      push_cast
      ring
    rw [hframes, ih (f + k)]
    have hrec0 : f + k - k = f := by ring
    rw [hrec0]
    have hrecs : (List.range n).map ((fun i : ℕ =>
          (f + (i : ℤ) * k, f + ((i : ℤ) + 1) * k,
            speedFromPair (loc (f + (i : ℤ) * k)) (loc (f + ((i : ℤ) + 1) * k)) k fps))
            ∘ Nat.succ)
        = (List.range n).map (fun i : ℕ =>
            ((f + k) + (i : ℤ) * k, (f + k) + ((i : ℤ) + 1) * k,
              speedFromPair (loc ((f + k) + (i : ℤ) * k))
                (loc ((f + k) + ((i : ℤ) + 1) * k)) k fps)) := by
      apply List.map_congr_left
      intro i _
      simp only [Function.comp_apply, Nat.succ_eq_add_one]
      have e1 : f + (((i : ℤ) + 1)) * k = (f + k) + (i : ℤ) * k := by ring
      have e2 : f + (((i : ℤ) + 1) + 1) * k = (f + k) + ((i : ℤ) + 1) * k := by ring
      push_cast
      rw [e1, e2]
    rw [hrecs]
    simp [List.append_assoc]

theorem getSpeedRecords_eq (loc : ℤ → ℝ × ℝ) (s e k fps : ℤ) :
    getSpeedRecords loc s e k fps
      = (List.range (pyRangeLen s (e + 1) k - 1)).map (fun i : ℕ =>
          (s + (i : ℤ) * k, s + ((i : ℤ) + 1) * k,
            speedFromPair (loc (s + (i : ℤ) * k)) (loc (s + ((i : ℤ) + 1) * k)) k fps)) := by
  unfold getSpeedRecords pyRange
  cases hn : pyRangeLen s (e + 1) k with
  | zero => simp [sampleLoop_nil]
  | succ m =>
    rw [List.range_succ_eq_map, List.map_cons, List.map_map]
    have h0 : s + (((0 : ℕ) : ℤ)) * k = s := by push_cast; ring
    rw [h0, sampleLoop_cons_none]
    have hframes : (List.range m).map ((fun i : ℕ => s + (i : ℤ) * k) ∘ Nat.succ)
        = (List.range m).map (fun i : ℕ => s + ((i : ℤ) + 1) * k) := by
      apply List.map_congr_left
      intro i _
      simp only [Function.comp_apply, Nat.succ_eq_add_one]
      push_cast
      ring
    rw [hframes, sampleLoop_closed loc k fps m s]
    simp

theorem getSpeedRecords_length (loc : ℤ → ℝ × ℝ) (s e k fps : ℤ) (hk : 1 ≤ k) :
    ((getSpeedRecords loc s e k fps).length : ℤ) = max 0 ((e - s).fdiv k) := by
  rw [getSpeedRecords_eq]
  simp only [List.length_map, List.length_range]
  unfold pyRangeLen
  have hk0 : k ≠ 0 := by omega
  have h1 : e + 1 - s + k - 1 = (e - s) + 1 * k := by ring
  rw [h1, Int.fdiv_eq_ediv _ (by omega), Int.add_mul_ediv_right _ _ hk0,
    Int.fdiv_eq_ediv _ (by omega)]
  generalize (e - s) / k = q
  omega

/-! ### Text-store and overlay-map lemmas -/

theorem setTextContent_has_name (name c : List Char) (st : TextStore) :
    (setTextContent name c st).any (fun t => t.1 = name) = true := by
  unfold setTextContent
  split
  · rename_i h
    rw [List.any_eq_true] at h ⊢
    obtain ⟨t, ht, hts⟩ := h
    rw [decide_eq_true_eq] at hts
    refine ⟨(t.1, c), List.mem_map.2 ⟨t, ht, by simp [hts]⟩, by simp [hts]⟩
  · rw [List.any_eq_true]
    exact ⟨(name, c), by simp, by simp⟩

theorem setTextContent_def (name c : List Char) (ts : TextStore) :
    setTextContent name c ts =
      if ts.any (fun t => t.1 = name) then
        ts.map (fun t => if t.1 = name then (t.1, c) else t)
      else ts ++ [(name, c)] := rfl

theorem setTextContent_set_set (name c₁ c₂ : List Char) (st : TextStore) :
    setTextContent name c₂ (setTextContent name c₁ st) = setTextContent name c₂ st := by
  have h := setTextContent_has_name name c₁ st
  rw [setTextContent_def name c₂ (setTextContent name c₁ st), if_pos h,
    setTextContent_def name c₁ st, setTextContent_def name c₂ st]
  split
  · rename_i hin
    rw [List.map_map]
    apply List.map_congr_left
    intro t _
    by_cases ht : t.1 = name
    · simp [ht]
    · simp [ht]
  · rename_i hout
    rw [List.map_append]
    have hst : st.map (fun t => if t.1 = name then (t.1, c₂) else t) = st := by
      have hpt : ∀ t ∈ st, (fun t : List Char × List Char =>
          if t.1 = name then (t.1, c₂) else t) t = id t := by
        intro t ht
        have hne : ¬(t.1 = name) := by
          intro hcontra
          apply hout
          rw [List.any_eq_true]
          exact ⟨t, ht, by simp [hcontra]⟩
        simp [hne]
      rw [List.map_congr_left hpt, List.map_id]
    rw [hst]
    simp

theorem foldl_speedMapStep_not_covering (f : ℤ) :
    ∀ (ys : List (ℤ × ℤ × ℤ)) (m : ℤ → Option ℤ),
      (∀ q ∈ ys, ¬(q.1 ≤ f ∧ f ≤ q.2.1)) →
      (ys.foldl speedMapStep m) f = m f
  | [], _, _ => rfl
  | q :: ys, m, h => by
    rw [List.foldl_cons,
      foldl_speedMapStep_not_covering f ys _
        (fun q' hq' => h q' (List.mem_cons_of_mem _ hq'))]
    unfold speedMapStep
    rw [if_neg (h q (List.mem_cons_self _ _))]

/-! ### Graph-writer helper lemmas -/

theorem shaderParseRow_tripleBody (r : ℤ × ℤ × ℤ) :
    shaderParseRow (splitOnChar ',' (tripleBody r)) = some (r.2.1, (r.2.2 : ℚ)) := by
  rw [splitOnChar_tripleBody]
  unfold shaderParseRow
  simp only [pyIntStr_intRepr, pyFloat_intRepr]

theorem shaderParseAll_map_tripleBody :
    ∀ rs : List (ℤ × ℤ × ℤ),
      shaderParseAll (rs.map tripleBody)
        = some (rs.map (fun r => (r.2.1, (r.2.2 : ℚ))))
  | [] => rfl
  | r :: rs => by
    show shaderParseAll (tripleBody r :: rs.map tripleBody) = _
    unfold shaderParseAll
    rw [shaderParseRow_tripleBody, shaderParseAll_map_tripleBody rs]
    rfl

/-! ### Claim theorems -/

/-- C1: for a selected object, stride `interval ≥ 1` and `fps > 0`, the
sampler visits the frames `start, start+interval, ...` up to `end` and, for
every sampled frame after the first, emits exactly the record
`(f - interval, f, round((sqrt(dx^2+dy^2) / (interval / fps)) * 100))`
computed from the positions at the two consecutive sampled frames; no
record is emitted for the first sampled frame, and every record satisfies
`frameEnd = frameStart + interval`. -/
theorem C1_sampler_records (loc : ℤ → ℝ × ℝ) (s e k fps : ℤ)
    (_hk : 1 ≤ k) (_hfps : 0 < fps) :
    getSpeedRecords loc s e k fps
      = (List.range (pyRangeLen s (e + 1) k - 1)).map (fun i : ℕ =>
          (s + (i : ℤ) * k, s + ((i : ℤ) + 1) * k,
            speedFromPair (loc (s + (i : ℤ) * k)) (loc (s + ((i : ℤ) + 1) * k)) k fps))
    ∧ ∀ r ∈ getSpeedRecords loc s e k fps, r.2.1 = r.1 + k := by
  refine ⟨getSpeedRecords_eq loc s e k fps, ?_⟩
  intro r hr
  rw [getSpeedRecords_eq] at hr
  obtain ⟨i, _, rfl⟩ := List.mem_map.1 hr
  show s + ((i : ℤ) + 1) * k = s + (i : ℤ) * k + k
  ring

theorem C1_sampler_records_witness :
    (1 : ℤ) ≤ 1 ∧ (0 : ℤ) < 24 ∧
      (getSpeedRecords (fun _ => ((0 : ℝ), 0)) 0 2 1 24
        = (List.range (pyRangeLen 0 (2 + 1) 1 - 1)).map (fun i : ℕ =>
            ((0 : ℤ) + (i : ℤ) * 1, 0 + ((i : ℤ) + 1) * 1,
              speedFromPair ((fun _ => ((0 : ℝ), 0)) (0 + (i : ℤ) * 1))
                ((fun _ => ((0 : ℝ), 0)) (0 + ((i : ℤ) + 1) * 1)) 1 24))
      ∧ ∀ r ∈ getSpeedRecords (fun _ => ((0 : ℝ), 0)) 0 2 1 24, r.2.1 = r.1 + 1) :=
  ⟨by decide, by decide,
    C1_sampler_records (fun _ => ((0 : ℝ), 0)) 0 2 1 24 (by decide) (by decide)⟩

/-- C2: for every frame range `[start, end]` and stride `k ≥ 1`, the number
of records produced by the sampling pass is `max(0, floor((end - start) / k))`;
in particular zero records when `start = end`. -/
theorem C2_record_count (loc : ℤ → ℝ × ℝ) (s e k fps : ℤ) (hk : 1 ≤ k) :
    ((getSpeedRecords loc s e k fps).length : ℤ) = max 0 ((e - s).fdiv k)
    ∧ (s = e → (getSpeedRecords loc s e k fps).length = 0) := by
  refine ⟨getSpeedRecords_length loc s e k fps hk, ?_⟩
  intro hse
  subst hse
  have h := getSpeedRecords_length loc s s k fps hk
  rw [sub_self, Int.zero_fdiv] at h
  simp only [max_self] at h
  exact_mod_cast h

theorem C2_record_count_witness :
    (1 : ℤ) ≤ 2 ∧
      (((getSpeedRecords (fun _ => ((0 : ℝ), 0)) 0 5 2 24).length : ℤ)
          = max 0 (((5 : ℤ) - 0).fdiv 2)
        ∧ ((0 : ℤ) = 5 → (getSpeedRecords (fun _ => ((0 : ℝ), 0)) 0 5 2 24).length = 0)) :=
  ⟨by decide, C2_record_count (fun _ => ((0 : ℝ), 0)) 0 5 2 24 (by decide)⟩

unseal Rat.add Rat.mul Rat.inv Rat.sub in
/-- C3 counterexample: with `averagingWindow = 2` on speeds `[0, 0, 6]`, the
code's middle output is `2`, the rounded mean of all three records — yet a
centered window of width 2 around the middle record (the window is interior,
so no edge clamping applies) could only contain one or two of the
consecutive records, whose rounded means are `0`, `0` and `3`, never `2`.
So the window the code uses does not have width `averagingWindow` for even
window sizes. -/
theorem C3_counterexample :
    smoothRecords 2 [((0 : ℤ), (1 : ℤ), (0 : ℤ)), (1, 2, 0), (2, 3, 6)]
        = [(0, 1, 0), (1, 2, 2), (2, 3, 3)]
    ∧ pyRound ((0 : ℚ) / 1) ≠ 2
    ∧ pyRound (((0 : ℚ) + 0) / 2) ≠ 2
    ∧ pyRound (((0 : ℚ) + 6) / 2) ≠ 2 := by decide

unseal Rat.add Rat.mul Rat.inv Rat.sub in
/-- C3 (amended): the smoothing pass replaces each record's speed with the
rounded mean of the window of records whose index is within `⌊w/2⌋` of the
record's index, clamped to the available record bounds at the edges — a
window of width `2*⌊w/2⌋ + 1` when unclamped, which equals `w` only for odd
`w` (for even `w` it is `w + 1`).  It preserves the record count and every
record's frame fields, and window 3 over speeds `[10, 20, 30, 40]` yields
`[15, 20, 30, 35]`. -/
theorem C3_smoothing (w : ℕ) (data : List (ℤ × ℤ × ℤ)) (_hw : 1 ≤ w) :
    smoothRecords w data = smoothSpec w data
    ∧ (smoothRecords w data).length = data.length
    ∧ (smoothRecords w data).map (fun r => (r.1, r.2.1))
        = data.map (fun r => (r.1, r.2.1))
    ∧ smoothRecords 3 [((0 : ℤ), (1 : ℤ), (10 : ℤ)), (1, 2, 20), (2, 3, 30), (3, 4, 40)]
        = [(0, 1, 15), (1, 2, 20), (2, 3, 30), (3, 4, 35)] :=
  ⟨smoothRecords_eq_smoothSpec w data, smoothRecords_length w data,
    smoothRecords_frames w data, by decide⟩

theorem C3_smoothing_witness :
    (1 : ℕ) ≤ 3 ∧
      (smoothRecords 3 [((0 : ℤ), (1 : ℤ), (10 : ℤ)), (1, 2, 20), (2, 3, 30), (3, 4, 40)]
          = smoothSpec 3 [((0 : ℤ), (1 : ℤ), (10 : ℤ)), (1, 2, 20), (2, 3, 30), (3, 4, 40)]
        ∧ (smoothRecords 3 [((0 : ℤ), (1 : ℤ), (10 : ℤ)), (1, 2, 20), (2, 3, 30), (3, 4, 40)]).length
            = ([((0 : ℤ), (1 : ℤ), (10 : ℤ)), (1, 2, 20), (2, 3, 30), (3, 4, 40)] : List (ℤ × ℤ × ℤ)).length
        ∧ (smoothRecords 3 [((0 : ℤ), (1 : ℤ), (10 : ℤ)), (1, 2, 20), (2, 3, 30), (3, 4, 40)]).map
              (fun r => (r.1, r.2.1))
            = ([((0 : ℤ), (1 : ℤ), (10 : ℤ)), (1, 2, 20), (2, 3, 30), (3, 4, 40)] : List (ℤ × ℤ × ℤ)).map
              (fun r => (r.1, r.2.1))
        ∧ smoothRecords 3 [((0 : ℤ), (1 : ℤ), (10 : ℤ)), (1, 2, 20), (2, 3, 30), (3, 4, 40)]
            = [(0, 1, 15), (1, 2, 20), (2, 3, 30), (3, 4, 35)]) :=
  ⟨by decide,
    C3_smoothing 3 [((0 : ℤ), (1 : ℤ), (10 : ℤ)), (1, 2, 20), (2, 3, 30), (3, 4, 40)] (by decide)⟩

/-- C4: smoothing with `averagingWindow = 1` is the identity on the record
sequence. -/
theorem C4_window_one_identity (data : List (ℤ × ℤ × ℤ)) :
    smoothRecords 1 data = data :=
  smoothRecords_one data

/-- C5 counterexample: serializing the empty sequence yields the empty text,
and parsing the empty text fails (Python's `"".strip().split('\n')` is
`['']`, and the empty line does not split into three fields), so the
round trip does not return the original (empty) sequence. -/
theorem C5_counterexample :
    parseSeries (serializeSeries ([] : List (ℤ × ℤ × ℤ))) = none
    ∧ parseSeries (serializeSeries ([] : List (ℤ × ℤ × ℤ)))
        ≠ some ([] : List (ℤ × ℤ × ℤ)) := by decide

/-- C5 (amended): for every NONEMPTY sequence of integer triples,
serializing one `"frameStart,frameEnd,speed\n"` line per triple and parsing
the text back with the Series Reader yields exactly the original sequence,
in order.  (The empty sequence round trip fails: see the counterexample.) -/
theorem C5_roundtrip (l : List (ℤ × ℤ × ℤ)) (h : l ≠ []) :
    parseSeries (serializeSeries l) = some l := by
  cases l with
  | nil => exact absurd rfl h
  | cons r t =>
    unfold parseSeries
    rw [pyStrip_serializeSeries, splitOnChar_seriesBody, parseAll_map_tripleBody]

theorem C5_roundtrip_witness :
    ([((0 : ℤ), (1 : ℤ), (5 : ℤ))] : List (ℤ × ℤ × ℤ)) ≠ []
    ∧ parseSeries (serializeSeries [((0 : ℤ), (1 : ℤ), (5 : ℤ))])
        = some [((0 : ℤ), (1 : ℤ), (5 : ℤ))] :=
  ⟨by decide, C5_roundtrip [((0 : ℤ), (1 : ℤ), (5 : ℤ))] (by decide)⟩

unseal Rat.add Rat.mul Rat.inv Rat.sub in
/-- C6 counterexample: the input `"1,2,3\n\n4,5,6"` contains one empty line
(between the two records), its lines after stripping and splitting are
`["1,2,3", "", "4,5,6"]`, and parsing fails — the empty line splits into a
single empty field rather than three numeric fields.  So empty lines do
cause failure, contrary to the claim. -/
theorem C6_counterexample :
    splitOnChar '\n' (pyStrip ("1,2,3\n\n4,5,6".toList))
        = ["1,2,3".toList, [], "4,5,6".toList]
    ∧ parseSeries ("1,2,3\n\n4,5,6".toList) = none := by decide

/-- C6 (amended): the Series Reader fails exactly when some line of the
outer-stripped, newline-split text does not split into exactly three
comma-separated fields that all convert numerically.  An empty line (which
can arise from interior blank lines, or from entirely empty input) splits
into one empty field and therefore causes failure. -/
theorem C6_parse_failure (text : List Char) :
    parseSeries text = none ↔
      ∃ l ∈ splitOnChar '\n' (pyStrip text),
        (splitOnChar ',' l).length ≠ 3 ∨ ∃ f ∈ splitOnChar ',' l, pyFloat f = none := by
  unfold parseSeries
  rw [parseAll_eq_none_iff]
  constructor
  · rintro ⟨l, hl, hnone⟩
    exact ⟨l, hl, (parseLine_eq_none_iff l).1 hnone⟩
  · rintro ⟨l, hl, hbad⟩
    exact ⟨l, hl, (parseLine_eq_none_iff l).2 hbad⟩

theorem getSpeedExec_true (loc : ℤ → ℝ × ℝ) (s e k fps : ℤ) (avg : Bool) (w : ℕ)
    (name : List Char) (st : TextStore) :
    getSpeedExec true loc s e k fps avg w name st =
      if fps = 0 ∧ 2 ≤ pyRangeLen s (e + 1) k
      then (setTextContent name [] st, ExecResult.zeroDivRaised)
      else (setTextContent name
          (serializeSeries (if avg then smoothRecords w (getSpeedRecords loc s e k fps)
            else getSpeedRecords loc s e k fps))
          (setTextContent name [] st), ExecResult.finished) := rfl

/-- C7 counterexample: with an object selected, a degenerate range
(`start = end = 0`, so no records can be produced) and valid `fps = 24`,
the operator does NOT signal an error: it finishes successfully, and it
changes the underlying state — the named text block is created (or
cleared) even though no records are written. -/
theorem C7_counterexample :
    getSpeedExec true (fun _ => ((0 : ℝ), 0)) 0 0 1 24 false 1 ['s'] []
        = ([(['s'], [])], ExecResult.finished)
    ∧ ([(['s'], [])] : TextStore) ≠ [] := by
  constructor
  · rw [getSpeedExec_true]
    rw [if_neg (by decide)]
    rfl
  · decide

/-- C7 (amended): only the no-object-selected guard behaves as claimed —
it cancels with an error and leaves the state unchanged.  A frame range
yielding no records does not signal an error: the operator clears or
creates the named text block (a state change), writes nothing into it, and
reports success.  With `fps = 0` and at least two sampled frames, the
elapsed-time division raises an uncaught ZeroDivisionError after the block
has already been cleared; no guard rejects non-positive fps. -/
theorem C7_guards :
    (∀ (loc : ℤ → ℝ × ℝ) (s e k fps : ℤ) (avg : Bool) (w : ℕ)
        (name : List Char) (st : TextStore),
        getSpeedExec false loc s e k fps avg w name st = (st, ExecResult.cancelled))
    ∧ (∀ (loc : ℤ → ℝ × ℝ) (s k fps : ℤ) (name : List Char) (st : TextStore),
        1 ≤ k →
        getSpeedExec true loc s s k fps false 1 name st
          = (setTextContent name [] st, ExecResult.finished))
    ∧ (∀ (loc : ℤ → ℝ × ℝ) (s e k : ℤ) (avg : Bool) (w : ℕ)
        (name : List Char) (st : TextStore),
        2 ≤ pyRangeLen s (e + 1) k →
        getSpeedExec true loc s e k 0 avg w name st
          = (setTextContent name [] st, ExecResult.zeroDivRaised)) := by
  refine ⟨fun _ _ _ _ _ _ _ _ _ => rfl, ?_, ?_⟩
  · intro loc s k fps name st hk
    have hk0 : k ≠ 0 := by omega
    have hlen : pyRangeLen s (s + 1) k = 1 := by
      unfold pyRangeLen
      have h1 : s + 1 - s + k - 1 = k := by ring
      rw [h1, Int.fdiv_self hk0]
      rfl
    have hrec : getSpeedRecords loc s s k fps = [] := by
      have h := getSpeedRecords_length loc s s k fps hk
      rw [sub_self, Int.zero_fdiv, max_self] at h
      exact List.length_eq_zero.1 (by exact_mod_cast h)
    rw [getSpeedExec_true,
      if_neg (by rw [hlen]; rintro ⟨_, h2⟩; omega), hrec]
    show (setTextContent name [] (setTextContent name [] st), ExecResult.finished)
      = (setTextContent name [] st, ExecResult.finished)
    rw [setTextContent_set_set]
  · intro loc s e k avg w name st h2
    rw [getSpeedExec_true, if_pos ⟨rfl, h2⟩]

theorem C7_guards_witness :
    getSpeedExec false (fun _ => ((0 : ℝ), 0)) 0 5 1 24 false 1 ['s'] []
        = ([], ExecResult.cancelled)
    ∧ (1 : ℤ) ≤ 1
    ∧ getSpeedExec true (fun _ => ((0 : ℝ), 0)) 3 3 1 24 false 1 ['s'] []
        = (setTextContent ['s'] [] [], ExecResult.finished)
    ∧ 2 ≤ pyRangeLen 0 (5 + 1) 1
    ∧ getSpeedExec true (fun _ => ((0 : ℝ), 0)) 0 5 1 0 false 1 ['s'] []
        = (setTextContent ['s'] [] [], ExecResult.zeroDivRaised) :=
  ⟨C7_guards.1 (fun _ => ((0 : ℝ), 0)) 0 5 1 24 false 1 ['s'] [], by decide,
    C7_guards.2.1 (fun _ => ((0 : ℝ), 0)) 3 1 24 ['s'] [] (by decide), by decide,
    C7_guards.2.2 (fun _ => ((0 : ℝ), 0)) 0 5 1 false 1 ['s'] [] (by decide)⟩

/-- C8: for every successfully parsed series, the graph writer (common to
the shader-editor and geometry-nodes transfer operators) creates exactly
one new scalar value node, reuses the graph's existing animation action
when present (creating one only when absent), appends exactly one new
curve, and inserts exactly one keyframe per record at
`frame = record.frameEnd` with value `record.speed` and CONSTANT (step)
interpolation; parsing a serialized series indeed yields the
`(frameEnd, speed)` pairs of its records. -/
theorem C8_graph_writer :
    (∀ (series : List (ℤ × ℚ)) (g : NodeTreeState),
        (transferToGraph series g).1.numValueNodes = g.numValueNodes + 1
        ∧ ((transferToGraph series g).2 = true ↔ g.action = none)
        ∧ (∀ cs, g.action = some cs →
            (transferToGraph series g).1.action
              = some (cs ++ [⟨series.map (fun p => (p.1, p.2, Interp.constant))⟩]))
        ∧ (g.action = none →
            (transferToGraph series g).1.action
              = some [⟨series.map (fun p => (p.1, p.2, Interp.constant))⟩]))
    ∧ (∀ rs : List (ℤ × ℤ × ℤ), rs ≠ [] →
        shaderParse (serializeSeries rs)
          = some (rs.map (fun r => (r.2.1, (r.2.2 : ℚ))))) := by
  constructor
  · intro series g
    refine ⟨rfl, ?_, ?_, ?_⟩
    · cases hg : g.action <;> simp [transferToGraph, hg]
    · intro cs hcs
      simp [transferToGraph, hcs]
    · intro hnone
      simp [transferToGraph, hnone]
  · intro rs hrs
    cases rs with
    | nil => exact absurd rfl hrs
    | cons r t =>
      unfold shaderParse
      rw [pyStrip_serializeSeries, splitOnChar_seriesBody, shaderParseAll_map_tripleBody]

theorem C8_graph_writer_witness :
    (transferToGraph [((1 : ℤ), (5 : ℚ))] ⟨0, none⟩).1.numValueNodes = 0 + 1
    ∧ ([((0 : ℤ), (1 : ℤ), (5 : ℤ))] : List (ℤ × ℤ × ℤ)) ≠ []
    ∧ shaderParse (serializeSeries [((0 : ℤ), (1 : ℤ), (5 : ℤ))])
        = some (([((0 : ℤ), (1 : ℤ), (5 : ℤ))] : List (ℤ × ℤ × ℤ)).map
            (fun r => (r.2.1, (r.2.2 : ℚ)))) :=
  ⟨(C8_graph_writer.1 [((1 : ℤ), (5 : ℚ))] ⟨0, none⟩).1, by decide,
    C8_graph_writer.2 [((0 : ℤ), (1 : ℤ), (5 : ℤ))] (by decide)⟩

/-- C9: the overlay's frame→speed mapping assigns to every frame in a
record's inclusive `[frameStart, frameEnd]` range that record's speed,
with later records overwriting earlier ones on overlapping frames, and
the per-frame lookup returns the default 0 for frames outside every
record's range. -/
theorem C9_overlay (rows : List (ℤ × ℤ × ℤ)) (f : ℤ) :
    ((∀ r ∈ rows, ¬(r.1 ≤ f ∧ f ≤ r.2.1)) → lookupSpeed rows f = 0)
    ∧ (∀ xs r ys, rows = xs ++ r :: ys → (r.1 ≤ f ∧ f ≤ r.2.1) →
        (∀ q ∈ ys, ¬(q.1 ≤ f ∧ f ≤ q.2.1)) → lookupSpeed rows f = r.2.2) := by
  constructor
  · intro h
    unfold lookupSpeed buildSpeedMap
    rw [foldl_speedMapStep_not_covering f rows _ h]
    rfl
  · intro xs r ys hrows hcov hys
    subst hrows
    unfold lookupSpeed buildSpeedMap
    rw [List.foldl_append, List.foldl_cons,
      foldl_speedMapStep_not_covering f ys _ hys]
    unfold speedMapStep
    rw [if_pos hcov]
    rfl

theorem C9_overlay_witness :
    lookupSpeed [((0 : ℤ), (2 : ℤ), (7 : ℤ))] 5 = 0
    ∧ lookupSpeed [((0 : ℤ), (3 : ℤ), (7 : ℤ)), (2, 4, 9)] 3 = 9 :=
  ⟨(C9_overlay [((0 : ℤ), (2 : ℤ), (7 : ℤ))] 5).1 (by decide),
    (C9_overlay [((0 : ℤ), (3 : ℤ), (7 : ℤ)), (2, 4, 9)] 3).2
      [((0 : ℤ), (3 : ℤ), (7 : ℤ))] (2, 4, 9) [] rfl (by decide) (by decide)⟩

/-- C10: after the Display Speed operator runs, the frame-change handler
list contains exactly the one newly registered callback, whatever was
registered before — the operator clears the whole list (including
third-party handlers) and then appends its own callback. -/
theorem C10_single_handler {α : Type} (prev : List α) (handler : α) :
    displaySpeedHandlers prev handler = [handler]
    ∧ (displaySpeedHandlers prev handler).length = 1 :=
  ⟨rfl, rfl⟩
